import Mathlib

/-!
# Connection pool of `pgx` (`connection_pool.go`)

A shallow embedding of the pool and proofs of its contract.

* The `Connection` collaborator (connect, close, execute, the select family,
  the transaction status byte) is not part of the pool; it is taken as a
  parameter, the structure `Driver`, acting on an arbitrary world `W`.
* A buffered Go channel of capacity `cap` is a FIFO list with a capacity;
  a receive from an empty buffer and a send to a full buffer do not complete.
* Every call the pool makes to the collaborator and every channel operation
  is recorded, in order, in a trace, so that "how often" and "before" can be
  stated.
* Concurrency is an interleaving of atomic actions of callers on one shared
  state (`step`, `run`).
-/

namespace Pgx

/-! ## Collaborator interface -/

/-- Identity of a `*Connection` pointer. -/
abbrev Conn := Nat

/-- A non-nil Go `error` value. -/
abbrev Error := String

/-- The contents of `ConnectionParameters`, which the pool only forwards. -/
abbrev ConnectionParameters := String

/-- A Go `interface{}` value (query argument or result cell). -/
abbrev Value := String

/-- A result row, `map[string]interface{}`. -/
abbrev Row := List (String × Value)

/-- The `onDataRow` callback handed to `SelectFunc`; the pool only forwards it. -/
abbrev RowFunc := Nat

/-- Identity of a caller (goroutine). -/
abbrev Caller := Nat

/-- Observable actions: calls to the collaborator and channel operations. -/
inductive Event where
  | connect (parameters : ConnectionParameters)
  | afterConnect (c : Conn)
  | execute (c : Conn) (sql : String) (arguments : List Value)
  | selectFunc (c : Conn) (sql : String) (onDataRow : RowFunc) (arguments : List Value)
  | selectRows (c : Conn) (sql : String) (arguments : List Value)
  | selectRow (c : Conn) (sql : String) (arguments : List Value)
  | selectValue (c : Conn) (sql : String) (arguments : List Value)
  | selectValues (c : Conn) (sql : String) (arguments : List Value)
  | close (c : Conn)
  | send (c : Conn)
  | recv (c : Conn)
  deriving DecidableEq, Repr

/-- The `Connection` collaborator over a world `W`: every operation may read
and change the world, and returns what the Go function returns. -/
structure Driver (W : Type) where
  Connect : ConnectionParameters → W → (Conn × Option Error) × W
  TxStatus : Conn → W → Char
  Execute : Conn → String → List Value → W → (String × Option Error) × W
  SelectFunc : Conn → String → RowFunc → List Value → W → Option Error × W
  SelectRows : Conn → String → List Value → W → (List Row × Option Error) × W
  SelectRow : Conn → String → List Value → W → (Row × Option Error) × W
  SelectValue : Conn → String → List Value → W → (Value × Option Error) × W
  SelectValues : Conn → String → List Value → W → (List Value × Option Error) × W
  Close : Conn → W → Option Error × W

/-- The world of the collaborator together with the trace of events so far. -/
structure Sys (W : Type) where
  world : W
  trace : List Event

/-- Append one event to the trace. -/
def Sys.log {W : Type} (s : Sys W) (e : Event) : Sys W :=
  { s with trace := s.trace ++ [e] }

/-- Result of running a function of the pool on its own: it returns, or it
waits on a channel operation that cannot complete (in the world and trace
reached so far), or it panics. -/
inductive Outcome (W α : Type) where
  | ret (a : α)
  | blocked (s : Sys W)
  | panicked

/-- Sequencing: a blocked or panicked call does not continue. -/
def Outcome.bind {W α β : Type} (o : Outcome W α) (f : α → Outcome W β) : Outcome W β :=
  match o with
  | .ret a => f a
  | .blocked s => .blocked s
  | .panicked => .panicked

/-! ## Channels -/

/-- A buffered channel of connection pointers. With capacity zero the buffer
stays empty and neither operation completes on its own (a hand-over between
two callers is not needed for a pool of at least one connection). -/
structure Chan where
  buf : List Conn
  cap : Nat
  deriving DecidableEq, Repr

/-- The Go builtin `make(chan *Connection, n)`; `none` is the panic on a
negative size. -/
def Chan.make (n : Int) : Option Chan :=
  if n < 0 then none else some { buf := [], cap := n.toNat }

/-- The statement `ch <- c`: completes only when the buffer has room. -/
def Chan.send (ch : Chan) (c : Conn) : Option Chan :=
  if ch.buf.length < ch.cap then some { ch with buf := ch.buf ++ [c] } else none

/-- The expression `<-ch`: completes only when the buffer is not empty. -/
def Chan.recv (ch : Chan) : Option (Conn × Chan) :=
  match ch.buf with
  | [] => none
  | c :: rest => some (c, { ch with buf := rest })

/-! ## The pool -/

structure ConnectionPoolOptions (W : Type) where
  MaxConnections : Int
  AfterConnect : Option (Conn → W → Option Error × W)

structure ConnectionPool (W : Type) where
  connectionChannel : Chan
  parameters : ConnectionParameters
  options : ConnectionPoolOptions W

/-- The pool with its channel replaced. -/
def ConnectionPool.withChan {W : Type} (p : ConnectionPool W) (ch : Chan) : ConnectionPool W :=
  { p with connectionChannel := ch }

/-- The method `createConnection`: returns `(c, err)`. -/
def createConnection {W : Type} (d : Driver W) (p : ConnectionPool W) (s : Sys W) :
    (Conn × Option Error) × Sys W :=
  let r := d.Connect p.parameters s.world
  let s1 : Sys W := { world := r.2, trace := s.trace ++ [Event.connect p.parameters] }
  match r.1.2 with
  | some e => ((r.1.1, some e), s1)
  | none =>
    match p.options.AfterConnect with
    | some hook =>
      let h := hook r.1.1 s1.world
      let s2 : Sys W := { world := h.2, trace := s1.trace ++ [Event.afterConnect r.1.1] }
      match h.1 with
      | some e => ((r.1.1, some e), s2)
      | none => ((r.1.1, none), s2)
    | none => ((r.1.1, none), s1)

/-- The loop of `NewConnectionPool` with `n` iterations left. -/
def NewConnectionPool.loop {W : Type} (d : Driver W) :
    Nat → ConnectionPool W → Sys W → Outcome W (ConnectionPool W × Option Error × Sys W)
  | 0, p, s => .ret (p, none, s)
  | n + 1, p, s =>
    let r := createConnection d p s
    match r.1.2 with
    | some e => .ret (p, some e, r.2)
    | none =>
      match p.connectionChannel.send r.1.1 with
      | none => .blocked r.2
      | some ch => NewConnectionPool.loop d n (p.withChan ch) (r.2.log (Event.send r.1.1))

/-- The function `NewConnectionPool`: returns `(p, err)`. -/
def NewConnectionPool {W : Type} (d : Driver W) (parameters : ConnectionParameters)
    (options : ConnectionPoolOptions W) (s : Sys W) :
    Outcome W (ConnectionPool W × Option Error × Sys W) :=
  match Chan.make options.MaxConnections with
  | none => .panicked
  | some ch =>
    NewConnectionPool.loop d options.MaxConnections.toNat
      { connectionChannel := ch, parameters := parameters, options := options } s

/-- The method `Acquire`. -/
def Acquire {W : Type} (p : ConnectionPool W) (s : Sys W) :
    Outcome W (Conn × ConnectionPool W × Sys W) :=
  match p.connectionChannel.recv with
  | none => .blocked s
  | some (c, ch) => .ret (c, p.withChan ch, s.log (Event.recv c))

/-- The rollback that `Release` issues on a connection that is not idle. -/
def rollbackIfNotIdle {W : Type} (d : Driver W) (c : Conn) (s : Sys W) : Sys W :=
  if d.TxStatus c s.world != 'I' then
    { world := (d.Execute c "rollback" [] s.world).2,
      trace := s.trace ++ [Event.execute c "rollback" []] }
  else s

/-- The method `Release`. -/
def Release {W : Type} (d : Driver W) (p : ConnectionPool W) (c : Conn) (s : Sys W) :
    Outcome W (ConnectionPool W × Sys W) :=
  let s1 := rollbackIfNotIdle d c s
  match p.connectionChannel.send c with
  | none => .blocked s1
  | some ch => .ret (p.withChan ch, s1.log (Event.send c))

/-- The loop of `Close` with `n` iterations left. -/
def Close.loop {W : Type} (d : Driver W) :
    Nat → ConnectionPool W → Sys W → Outcome W (ConnectionPool W × Sys W)
  | 0, p, s => .ret (p, s)
  | n + 1, p, s =>
    match p.connectionChannel.recv with
    | none => .blocked s
    | some (c, ch) =>
      Close.loop d n (p.withChan ch)
        { world := (d.Close c s.world).2, trace := s.trace ++ [Event.recv c, Event.close c] }

/-- The method `Close`. -/
def Close {W : Type} (d : Driver W) (p : ConnectionPool W) (s : Sys W) :
    Outcome W (ConnectionPool W × Sys W) :=
  Close.loop d p.options.MaxConnections.toNat p s

/-! ## Delegated operations: acquire, delegate, release (deferred) -/

def SelectFunc {W : Type} (d : Driver W) (p : ConnectionPool W) (sql : String)
    (onDataRow : RowFunc) (arguments : List Value) (s : Sys W) :
    Outcome W (Option Error × ConnectionPool W × Sys W) :=
  (Acquire p s).bind fun a =>
    let r := d.SelectFunc a.1 sql onDataRow arguments a.2.2.world
    let s1 : Sys W :=
      { world := r.2, trace := a.2.2.trace ++ [Event.selectFunc a.1 sql onDataRow arguments] }
    (Release d a.2.1 a.1 s1).bind fun b => .ret (r.1, b.1, b.2)

def SelectRows {W : Type} (d : Driver W) (p : ConnectionPool W) (sql : String)
    (arguments : List Value) (s : Sys W) :
    Outcome W ((List Row × Option Error) × ConnectionPool W × Sys W) :=
  (Acquire p s).bind fun a =>
    let r := d.SelectRows a.1 sql arguments a.2.2.world
    let s1 : Sys W :=
      { world := r.2, trace := a.2.2.trace ++ [Event.selectRows a.1 sql arguments] }
    (Release d a.2.1 a.1 s1).bind fun b => .ret (r.1, b.1, b.2)

def SelectRow {W : Type} (d : Driver W) (p : ConnectionPool W) (sql : String)
    (arguments : List Value) (s : Sys W) :
    Outcome W ((Row × Option Error) × ConnectionPool W × Sys W) :=
  (Acquire p s).bind fun a =>
    let r := d.SelectRow a.1 sql arguments a.2.2.world
    let s1 : Sys W :=
      { world := r.2, trace := a.2.2.trace ++ [Event.selectRow a.1 sql arguments] }
    (Release d a.2.1 a.1 s1).bind fun b => .ret (r.1, b.1, b.2)

def SelectValue {W : Type} (d : Driver W) (p : ConnectionPool W) (sql : String)
    (arguments : List Value) (s : Sys W) :
    Outcome W ((Value × Option Error) × ConnectionPool W × Sys W) :=
  (Acquire p s).bind fun a =>
    let r := d.SelectValue a.1 sql arguments a.2.2.world
    let s1 : Sys W :=
      { world := r.2, trace := a.2.2.trace ++ [Event.selectValue a.1 sql arguments] }
    (Release d a.2.1 a.1 s1).bind fun b => .ret (r.1, b.1, b.2)

def SelectValues {W : Type} (d : Driver W) (p : ConnectionPool W) (sql : String)
    (arguments : List Value) (s : Sys W) :
    Outcome W ((List Value × Option Error) × ConnectionPool W × Sys W) :=
  (Acquire p s).bind fun a =>
    let r := d.SelectValues a.1 sql arguments a.2.2.world
    let s1 : Sys W :=
      { world := r.2, trace := a.2.2.trace ++ [Event.selectValues a.1 sql arguments] }
    (Release d a.2.1 a.1 s1).bind fun b => .ret (r.1, b.1, b.2)

def Execute {W : Type} (d : Driver W) (p : ConnectionPool W) (sql : String)
    (arguments : List Value) (s : Sys W) :
    Outcome W ((String × Option Error) × ConnectionPool W × Sys W) :=
  (Acquire p s).bind fun a =>
    let r := d.Execute a.1 sql arguments a.2.2.world
    let s1 : Sys W :=
      { world := r.2, trace := a.2.2.trace ++ [Event.execute a.1 sql arguments] }
    (Release d a.2.1 a.1 s1).bind fun b => .ret (r.1, b.1, b.2)

/-! ## Concurrent use: interleaved atomic actions of callers -/

/-- Shared state: the pool, who holds which connection, world and trace. -/
structure State (W : Type) where
  pool : ConnectionPool W
  held : List (Caller × Conn)
  sys : Sys W

/-- Remove one holding `x` from the list of holdings. -/
def dropHolding (x : Caller × Conn) : List (Caller × Conn) → List (Caller × Conn)
  | [] => []
  | y :: ys => if y = x then ys else y :: dropHolding x ys

/-- Atomic actions of a caller `t`. A holder may also run statements on the
connection it holds (`use`). -/
inductive Action where
  | acquire (t : Caller)
  | release (t : Caller) (c : Conn)
  | use (t : Caller) (c : Conn) (sql : String) (arguments : List Value)
  deriving DecidableEq, Repr

/-- One action; `none` when the action cannot complete in this state (the
channel operation would wait) or, for `release` and `use`, when the caller
does not hold the connection. The status check and the rollback of `Release`
touch only the connection the caller holds, and the state between the
rollback and the send is the one a `use` of the rollback statement leads to,
so a release is taken as one action. -/
def step {W : Type} (d : Driver W) (a : Action) (st : State W) : Option (State W) :=
  match a with
  | .acquire t =>
    match Acquire st.pool st.sys with
    | .ret (c, p, s) => some { pool := p, held := (t, c) :: st.held, sys := s }
    | _ => none
  | .release t c =>
    if (t, c) ∈ st.held then
      match Release d st.pool c st.sys with
      | .ret (p, s) => some { pool := p, held := dropHolding (t, c) st.held, sys := s }
      | _ => none
    else none
  | .use t c sql arguments =>
    if (t, c) ∈ st.held then
      some { st with sys :=
        { world := (d.Execute c sql arguments st.sys.world).2,
          trace := st.sys.trace ++ [Event.execute c sql arguments] } }
    else none

/-- A schedule: the actions in the order in which they take effect. -/
def run {W : Type} (d : Driver W) : List Action → State W → Option (State W)
  | [], st => some st
  | a :: rest, st => (step d a st).bind (run d rest)

/-- The state right after construction: nothing is checked out. -/
def initState {W : Type} (p : ConnectionPool W) (s : Sys W) : State W :=
  { pool := p, held := [], sys := s }

/-- Connections the callers hold. -/
def State.checkedOut {W : Type} (st : State W) : List Conn :=
  st.held.map Prod.snd

/-- Connections in the channel. -/
def State.available {W : Type} (st : State W) : List Conn :=
  st.pool.connectionChannel.buf

/-! ## Describing a run of the collaborator -/

/-- What the optional post-connect hook returns on `c` in world `w`. -/
def hookResult {W : Type} (hook : Option (Conn → W → Option Error × W)) (c : Conn) (w : W) :
    Option Error × W :=
  match hook with
  | some h => h c w
  | none => (none, w)

/-- Successive successful establishments: starting in world `w`, `Connect`
returns the connections `cs`, one after the other, each followed by a
successful hook (when there is one), and the world ends as `w1`. -/
inductive Opened {W : Type} (d : Driver W) (parameters : ConnectionParameters)
    (hook : Option (Conn → W → Option Error × W)) : W → List Conn → W → Prop
  | nil (w : W) : Opened d parameters hook w [] w
  | cons {w w1 w2 w3 : W} {c : Conn} {cs : List Conn} :
      d.Connect parameters w = ((c, none), w1) →
      hookResult hook c w1 = (none, w2) →
      Opened d parameters hook w2 cs w3 →
      Opened d parameters hook w (c :: cs) w3

/-- Events of establishing one connection and putting it into the channel. -/
def openedEvents (parameters : ConnectionParameters) (hooked : Bool) (c : Conn) : List Event :=
  if hooked then [Event.connect parameters, Event.afterConnect c, Event.send c]
  else [Event.connect parameters, Event.send c]

/-- Events of the establishment that fails: the hook is reached only when
`Connect` itself succeeded. -/
def failedEvents (parameters : ConnectionParameters) (connectFailed : Bool) (c : Conn) :
    List Event :=
  if connectFailed then [Event.connect parameters]
  else [Event.connect parameters, Event.afterConnect c]

/-- Events of `Close` on the connections `cs`. -/
def closeEvents (cs : List Conn) : List Event :=
  cs.flatMap fun c => [Event.recv c, Event.close c]

/-! ## Basic facts -/

@[simp] theorem withChan_parameters {W : Type} (p : ConnectionPool W) (ch : Chan) :
    (p.withChan ch).parameters = p.parameters := rfl

@[simp] theorem withChan_options {W : Type} (p : ConnectionPool W) (ch : Chan) :
    (p.withChan ch).options = p.options := rfl

@[simp] theorem withChan_connectionChannel {W : Type} (p : ConnectionPool W) (ch : Chan) :
    (p.withChan ch).connectionChannel = ch := rfl

@[simp] theorem withChan_withChan {W : Type} (p : ConnectionPool W) (ch ch1 : Chan) :
    (p.withChan ch).withChan ch1 = p.withChan ch1 := rfl

theorem send_of_room (ch : Chan) (c : Conn) (h : ch.buf.length < ch.cap) :
    ch.send c = some { buf := ch.buf ++ [c], cap := ch.cap } := by
  simp [Chan.send, h]

theorem createConnection_ok {W : Type} (d : Driver W) (p : ConnectionPool W) (s : Sys W)
    (c : Conn) (w1 w2 : W)
    (hc : d.Connect p.parameters s.world = ((c, none), w1))
    (hh : hookResult p.options.AfterConnect c w1 = (none, w2)) :
    createConnection d p s =
      ((c, none), { world := w2, trace := s.trace ++
        (if p.options.AfterConnect.isSome then
          [Event.connect p.parameters, Event.afterConnect c]
         else [Event.connect p.parameters]) }) := by
  unfold createConnection
  simp only [hc]
  cases hk : p.options.AfterConnect with
  | none =>
    rw [hk] at hh
    simp only [hookResult, Prod.mk.injEq, true_and] at hh
    simp [hh]
  | some hook =>
    rw [hk] at hh
    simp only [hookResult] at hh
    simp [hh]

theorem loop_opened {W : Type} (d : Driver W) (n : Nat) (cs : List Conn) :
    ∀ (p : ConnectionPool W) (s : Sys W) (w1 : W),
      Opened d p.parameters p.options.AfterConnect s.world cs w1 →
      p.connectionChannel.buf.length + cs.length ≤ p.connectionChannel.cap →
      NewConnectionPool.loop d (cs.length + n) p s =
        NewConnectionPool.loop d n
          (p.withChan { buf := p.connectionChannel.buf ++ cs, cap := p.connectionChannel.cap })
          { world := w1, trace := s.trace ++
              cs.flatMap (openedEvents p.parameters p.options.AfterConnect.isSome) } := by
  induction cs with
  | nil =>
    intro p s w1 h _
    cases h
    simp [ConnectionPool.withChan]
  | cons c cs ih =>
    intro p s w1 h hcap
    cases h with
    | @cons _ wa wb _ _ _ hc hh hrest =>
      have hroom : p.connectionChannel.buf.length < p.connectionChannel.cap := by
        simp only [List.length_cons] at hcap; omega
      have hstep : NewConnectionPool.loop d ((c :: cs).length + n) p s =
          NewConnectionPool.loop d (cs.length + n)
            (p.withChan { buf := p.connectionChannel.buf ++ [c], cap := p.connectionChannel.cap })
            (({ world := wb, trace := s.trace ++
              (if p.options.AfterConnect.isSome then
                [Event.connect p.parameters, Event.afterConnect c]
               else [Event.connect p.parameters]) } : Sys W).log (Event.send c)) := by
        have : (c :: cs).length + n = (cs.length + n) + 1 := by
          simp only [List.length_cons]; omega
        rw [this, NewConnectionPool.loop]
        simp only [createConnection_ok d p s c _ _ hc hh, send_of_room _ _ hroom]
      rw [hstep]
      have hcap1 : (p.connectionChannel.buf ++ [c]).length + cs.length ≤
          p.connectionChannel.cap := by
        simp only [List.length_append, List.length_cons, List.length_nil] at hcap ⊢; omega
      have hnext := ih (p.withChan ⟨p.connectionChannel.buf ++ [c], p.connectionChannel.cap⟩)
        (({ world := wb, trace := s.trace ++
              (if p.options.AfterConnect.isSome then
                [Event.connect p.parameters, Event.afterConnect c]
               else [Event.connect p.parameters]) } : Sys W).log (Event.send c)) w1
        hrest hcap1
      rw [hnext]
      congr 1
      · simp [ConnectionPool.withChan]
      · cases hk : p.options.AfterConnect <;>
          simp [Sys.log, openedEvents, List.flatMap_cons, hk]

theorem count_connect_openedEvents (parameters : ConnectionParameters) (hooked : Bool)
    (cs : List Conn) :
    (cs.flatMap (openedEvents parameters hooked)).count (Event.connect parameters) =
      cs.length := by
  induction cs with
  | nil => simp
  | cons c cs ih =>
    cases hooked <;>
      simp [List.flatMap_cons, List.count_append, openedEvents, ih, List.count_cons] at ih ⊢

theorem count_afterConnect_openedEvents (parameters : ConnectionParameters) (hooked : Bool)
    (cs : List Conn) (c : Conn) :
    (cs.flatMap (openedEvents parameters hooked)).count (Event.afterConnect c) =
      if hooked then cs.count c else 0 := by
  induction cs with
  | nil => simp
  | cons a cs ih =>
    cases hooked
    · simpa [List.flatMap_cons, List.count_append, openedEvents, List.count_cons] using ih
    · simp only [if_true] at ih
      by_cases h : a = c <;>
        simp [List.flatMap_cons, List.count_append, openedEvents, List.count_cons, ih, h]

theorem make_of_nonneg (n : Int) (h : 0 ≤ n) : Chan.make n = some { buf := [], cap := n.toNat } := by
  have : ¬ n < 0 := by omega
  simp [Chan.make, this]

/-! ## A small collaborator for concrete runs -/

/-- World of the small collaborator: the id of the next connection and the
connections that are inside an open transaction. -/
structure MockWorld where
  next : Nat
  inTx : List Conn
  deriving DecidableEq, Repr

/-- A collaborator for concrete runs. `Connect` hands out fresh ids and is
refused from id `refuseFrom` on; `"begin"` opens and `"rollback"` ends a
transaction; a connection in `broken` still accepts `"begin"`, but every
other statement on it fails and changes nothing, and so does closing it. -/
def mockDriver (refuseFrom : Option Nat) (broken : List Conn) : Driver MockWorld where
  Connect := fun _ w =>
    match refuseFrom with
    | some k =>
      if w.next < k then ((w.next, none), { w with next := w.next + 1 })
      else ((0, some "connection refused"), w)
    | none => ((w.next, none), { w with next := w.next + 1 })
  TxStatus := fun c w => if c ∈ w.inTx then 'T' else 'I'
  Execute := fun c sql _ w =>
    if sql = "begin" then ((sql, none), { w with inTx := c :: w.inTx })
    else if c ∈ broken then (("", some "broken pipe"), w)
    else if sql = "rollback" then ((sql, none), { w with inTx := w.inTx.filter (· ≠ c) })
    else ((sql, none), w)
  SelectFunc := fun c _ _ _ w => (if c ∈ broken then some "broken pipe" else none, w)
  SelectRows := fun c _ _ w => (([], if c ∈ broken then some "broken pipe" else none), w)
  SelectRow := fun c _ _ w => (([], if c ∈ broken then some "broken pipe" else none), w)
  SelectValue := fun c sql _ w => ((sql, if c ∈ broken then some "broken pipe" else none), w)
  SelectValues := fun c sql _ w => (([sql], if c ∈ broken then some "broken pipe" else none), w)
  Close := fun c w => (if c ∈ broken then some "broken pipe" else none, w)

/-- A post-connect hook that opens a transaction on every connection and
fails on connection `bad`. -/
def mockHook (bad : Conn) : Conn → MockWorld → Option Error × MockWorld :=
  fun c w => if c = bad then (some "hook failed", w) else (none, { w with inTx := c :: w.inTx })

/-- A fresh world with an empty trace. -/
def mockSys : Sys MockWorld :=
  { world := { next := 0, inTx := [] }, trace := [] }

/-! ## Construction -/

/-- C2: for N > 0, when the N successive establishments succeed (`Connect`
returns the connections `cs`, each followed by a successful hook when there is
one), `NewConnectionPool` returns a nil error and a pool whose channel holds
exactly `cs` in creation order; the events are, per connection and in order,
connect with the given parameters, the hook on it (when configured), and the
send; so `Connect` ran exactly N times and the hook once per opening; in
the state the pool starts from, the N connections are available and none is
checked out. -/
theorem newConnectionPool_success {W : Type} (d : Driver W)
    (parameters : ConnectionParameters) (options : ConnectionPoolOptions W) (s : Sys W)
    (cs : List Conn) (w1 : W)
    (hN : 0 < options.MaxConnections)
    (hlen : (cs.length : Int) = options.MaxConnections)
    (hopened : Opened d parameters options.AfterConnect s.world cs w1) :
    NewConnectionPool d parameters options s =
        .ret (⟨⟨cs, cs.length⟩, parameters, options⟩, none,
              { world := w1, trace := s.trace ++
                  cs.flatMap (openedEvents parameters options.AfterConnect.isSome) }) ∧
      (cs.flatMap (openedEvents parameters options.AfterConnect.isSome)).count
          (Event.connect parameters) = options.MaxConnections.toNat ∧
      (∀ c, (cs.flatMap (openedEvents parameters options.AfterConnect.isSome)).count
          (Event.afterConnect c) = if options.AfterConnect.isSome then cs.count c else 0) ∧
      (∀ s1 : Sys W,
        (initState (⟨⟨cs, cs.length⟩, parameters, options⟩ : ConnectionPool W) s1).available =
            cs ∧
          (initState (⟨⟨cs, cs.length⟩, parameters, options⟩ : ConnectionPool W)
            s1).checkedOut = []) := by
  have hto : options.MaxConnections.toNat = cs.length := by omega
  refine ⟨?_, ?_, ?_, fun _ => ⟨rfl, rfl⟩⟩
  · unfold NewConnectionPool
    rw [make_of_nonneg _ (le_of_lt hN)]
    simp only [hto]
    have h := loop_opened d 0 cs
      (⟨⟨[], cs.length⟩, parameters, options⟩ : ConnectionPool W) s w1 hopened (by simp)
    simp only [Nat.add_zero] at h
    rw [h]
    simp [NewConnectionPool.loop, ConnectionPool.withChan]
  · rw [count_connect_openedEvents, hto]
  · intro c
    exact count_afterConnect_openedEvents _ _ _ _

theorem newConnectionPool_success_witness :
    NewConnectionPool (mockDriver none []) "db" ⟨2, some (mockHook 7)⟩ mockSys =
      .ret (⟨⟨[0, 1], 2⟩, "db", ⟨2, some (mockHook 7)⟩⟩, none,
            { world := { next := 2, inTx := [1, 0] },
              trace := [Event.connect "db", Event.afterConnect 0, Event.send 0,
                        Event.connect "db", Event.afterConnect 1, Event.send 1] }) :=
  (newConnectionPool_success (mockDriver none []) "db" ⟨2, some (mockHook 7)⟩ mockSys
    [0, 1] { next := 2, inTx := [1, 0] } (by decide) (by decide)
    (Opened.cons rfl rfl (Opened.cons rfl rfl (Opened.nil _)))).1

theorem createConnection_connect_fails {W : Type} (d : Driver W) (p : ConnectionPool W)
    (s : Sys W) (c : Conn) (e : Error) (w2 : W)
    (hc : d.Connect p.parameters s.world = ((c, some e), w2)) :
    createConnection d p s =
      ((c, some e), { world := w2, trace := s.trace ++ [Event.connect p.parameters] }) := by
  unfold createConnection
  simp only [hc]

theorem createConnection_hook_fails {W : Type} (d : Driver W) (p : ConnectionPool W)
    (s : Sys W) (c : Conn) (e : Error) (wm w2 : W) (hook : Conn → W → Option Error × W)
    (hk : p.options.AfterConnect = some hook)
    (hc : d.Connect p.parameters s.world = ((c, none), wm))
    (hh : hook c wm = (some e, w2)) :
    createConnection d p s =
      ((c, some e), { world := w2, trace := s.trace ++
        [Event.connect p.parameters, Event.afterConnect c] }) := by
  unfold createConnection
  simp only [hc, hk, hh]
  simp

theorem close_not_mem_openedEvents (parameters : ConnectionParameters) (hooked : Bool)
    (cs : List Conn) (c : Conn) :
    Event.close c ∉ cs.flatMap (openedEvents parameters hooked) := by
  cases hooked <;> simp [List.mem_flatMap, openedEvents]

/-- C7: when the first k-1 establishments succeed (connections `cs`, with
`cs.length < N`) and the k-th fails with error `e`, either in `Connect` or in
the hook after a successful `Connect`, `NewConnectionPool` returns exactly
`e`; the trace ends with the failing call, so nothing is called after it; the
returned pool value still holds the k-1 connections in its channel and no
close was issued on any connection. -/
theorem newConnectionPool_failure {W : Type} (d : Driver W)
    (parameters : ConnectionParameters) (options : ConnectionPoolOptions W) (s : Sys W)
    (cs : List Conn) (w1 w2 : W) (c : Conn) (e : Error)
    (hk : (cs.length : Int) < options.MaxConnections)
    (hopened : Opened d parameters options.AfterConnect s.world cs w1)
    (hfail : d.Connect parameters w1 = ((c, some e), w2) ∨
      ∃ hook wm, options.AfterConnect = some hook ∧
        d.Connect parameters w1 = ((c, none), wm) ∧ hook c wm = (some e, w2)) :
    NewConnectionPool d parameters options s =
        .ret (⟨⟨cs, options.MaxConnections.toNat⟩, parameters, options⟩, some e,
              { world := w2, trace := s.trace ++
                  (cs.flatMap (openedEvents parameters options.AfterConnect.isSome) ++
                    failedEvents parameters (d.Connect parameters w1).1.2.isSome c) }) ∧
      ∀ c1, Event.close c1 ∉
        cs.flatMap (openedEvents parameters options.AfterConnect.isSome) ++
          failedEvents parameters (d.Connect parameters w1).1.2.isSome c := by
  constructor
  · obtain ⟨m, hm⟩ : ∃ m, options.MaxConnections.toNat = cs.length + (m + 1) :=
      ⟨options.MaxConnections.toNat - cs.length - 1, by omega⟩
    unfold NewConnectionPool
    rw [make_of_nonneg _ (by omega)]
    simp only []
    rw [hm]
    have h := loop_opened d (m + 1) cs
      (⟨⟨[], cs.length + (m + 1)⟩, parameters, options⟩ : ConnectionPool W) s w1 hopened
      (by simp)
    rw [h, NewConnectionPool.loop]
    rcases hfail with hc | ⟨hook, wm, hhook, hc, hh⟩
    · rw [createConnection_connect_fails d _ _ c e w2 hc]
      simp [ConnectionPool.withChan, failedEvents, hc]
    · rw [createConnection_hook_fails d _ _ c e wm w2 hook hhook hc hh]
      simp [ConnectionPool.withChan, failedEvents, hc]
  · intro c1 hmem
    rcases List.mem_append.1 hmem with h | h
    · exact close_not_mem_openedEvents _ _ _ _ h
    · cases hb : (d.Connect parameters w1).1.2.isSome <;> simp [failedEvents, hb] at h

theorem newConnectionPool_failure_witness :
    NewConnectionPool (mockDriver none []) "db" ⟨3, some (mockHook 1)⟩ mockSys =
      .ret (⟨⟨[0], 3⟩, "db", ⟨3, some (mockHook 1)⟩⟩, some "hook failed",
            { world := { next := 2, inTx := [0] },
              trace := [Event.connect "db", Event.afterConnect 0, Event.send 0,
                        Event.connect "db", Event.afterConnect 1] }) :=
  (newConnectionPool_failure (mockDriver none []) "db" ⟨3, some (mockHook 1)⟩ mockSys
    [0] { next := 1, inTx := [0] } { next := 2, inTx := [0] } 1 "hook failed" (by decide)
    (Opened.cons rfl rfl (Opened.nil _))
    (Or.inr ⟨mockHook 1, { next := 2, inTx := [0] }, rfl, rfl, rfl⟩)).1

/-! ## Release -/

theorem rollbackIfNotIdle_idle {W : Type} (d : Driver W) (c : Conn) (s : Sys W)
    (h : d.TxStatus c s.world = 'I') : rollbackIfNotIdle d c s = s := by
  simp [rollbackIfNotIdle, h]

theorem rollbackIfNotIdle_busy {W : Type} (d : Driver W) (c : Conn) (s : Sys W)
    (h : d.TxStatus c s.world ≠ 'I') :
    rollbackIfNotIdle d c s =
      { world := (d.Execute c "rollback" [] s.world).2,
        trace := s.trace ++ [Event.execute c "rollback" []] } := by
  simp [rollbackIfNotIdle, h]

theorem release_of_room {W : Type} (d : Driver W) (p : ConnectionPool W) (c : Conn)
    (s : Sys W) (h : p.connectionChannel.buf.length < p.connectionChannel.cap) :
    Release d p c s =
      .ret (p.withChan ⟨p.connectionChannel.buf ++ [c], p.connectionChannel.cap⟩,
            (rollbackIfNotIdle d c s).log (Event.send c)) := by
  simp [Release, send_of_room _ _ h]

/-- C4: `Release(c)` first brings the system to a state `s1` whose trace is
the old trace followed by the single event `execute c "rollback"` when the
status of `c` is not `'I'`, and by nothing when it is `'I'` (the world changes
by that one statement only); only then it sends `c`: with room in the channel
it returns with `c` appended and the send logged after the rollback, without
room it waits in `s1`. No other statement is issued. -/
theorem release_rollback_once {W : Type} (d : Driver W) (p : ConnectionPool W) (c : Conn)
    (s : Sys W) :
    ∃ s1 : Sys W,
      s1.trace = s.trace ++
        (if d.TxStatus c s.world = 'I' then [] else [Event.execute c "rollback" []]) ∧
      s1.world =
        (if d.TxStatus c s.world = 'I' then s.world
         else (d.Execute c "rollback" [] s.world).2) ∧
      (s1.trace.count (Event.execute c "rollback" []) =
        s.trace.count (Event.execute c "rollback" []) +
          (if d.TxStatus c s.world = 'I' then 0 else 1)) ∧
      Release d p c s =
        (if p.connectionChannel.buf.length < p.connectionChannel.cap then
          .ret (p.withChan ⟨p.connectionChannel.buf ++ [c], p.connectionChannel.cap⟩,
                { world := s1.world, trace := s1.trace ++ [Event.send c] })
         else .blocked s1) := by
  refine ⟨rollbackIfNotIdle d c s, ?_, ?_, ?_, ?_⟩
  · by_cases h : d.TxStatus c s.world = 'I'
    · simp [rollbackIfNotIdle_idle d c s h, h]
    · simp [rollbackIfNotIdle_busy d c s h, h]
  · by_cases h : d.TxStatus c s.world = 'I'
    · simp [rollbackIfNotIdle_idle d c s h, h]
    · simp [rollbackIfNotIdle_busy d c s h, h]
  · by_cases h : d.TxStatus c s.world = 'I'
    · simp [rollbackIfNotIdle_idle d c s h, h]
    · simp [rollbackIfNotIdle_busy d c s h, h, List.count_append]
  · by_cases hroom : p.connectionChannel.buf.length < p.connectionChannel.cap
    · simp [release_of_room d p c s hroom, hroom, Sys.log]
    · simp [Release, Chan.send, hroom]

/-- C5: for a connection `c` that is not idle and a channel with room (as it
is for a checked-out connection), `Release(c)` returns, its only result being
the pool with `c` appended to the channel, whatever `Execute` returned for the
rollback: two collaborators `d1` and `d2` in any two worlds (say one where the
rollback succeeds and one where it fails) lead to the same pool, and in both
the trace gains exactly the rollback and the send. -/
theorem release_ignores_rollback_result {W : Type} (d1 d2 : Driver W)
    (p : ConnectionPool W) (c : Conn) (s1 s2 : Sys W)
    (hroom : p.connectionChannel.buf.length < p.connectionChannel.cap)
    (h1 : d1.TxStatus c s1.world ≠ 'I') (h2 : d2.TxStatus c s2.world ≠ 'I') :
    Release d1 p c s1 =
        .ret (p.withChan ⟨p.connectionChannel.buf ++ [c], p.connectionChannel.cap⟩,
              { world := (d1.Execute c "rollback" [] s1.world).2,
                trace := s1.trace ++ [Event.execute c "rollback" [], Event.send c] }) ∧
      Release d2 p c s2 =
        .ret (p.withChan ⟨p.connectionChannel.buf ++ [c], p.connectionChannel.cap⟩,
              { world := (d2.Execute c "rollback" [] s2.world).2,
                trace := s2.trace ++ [Event.execute c "rollback" [], Event.send c] }) := by
  constructor
  · simp [release_of_room d1 p c s1 hroom, rollbackIfNotIdle_busy d1 c s1 h1, Sys.log]
  · simp [release_of_room d2 p c s2 hroom, rollbackIfNotIdle_busy d2 c s2 h2, Sys.log]

/-- A world in which connection `0` is inside an open transaction. -/
def busySys : Sys MockWorld :=
  { world := { next := 2, inTx := [0] }, trace := [] }

/-- A pool of capacity two whose connection `0` is checked out. -/
def mockPool : ConnectionPool MockWorld :=
  { connectionChannel := { buf := [1], cap := 2 }, parameters := "db", options := ⟨2, none⟩ }

theorem release_ignores_rollback_result_witness :
    (mockDriver none []).Execute 0 "rollback" [] busySys.world =
        (("rollback", none), { next := 2, inTx := [] }) ∧
      (mockDriver none [0]).Execute 0 "rollback" [] busySys.world =
        (("", some "broken pipe"), { next := 2, inTx := [0] }) ∧
      Release (mockDriver none []) mockPool 0 busySys =
        .ret (mockPool.withChan ⟨[1, 0], 2⟩,
              { world := { next := 2, inTx := [] },
                trace := [Event.execute 0 "rollback" [], Event.send 0] }) ∧
      Release (mockDriver none [0]) mockPool 0 busySys =
        .ret (mockPool.withChan ⟨[1, 0], 2⟩,
              { world := { next := 2, inTx := [0] },
                trace := [Event.execute 0 "rollback" [], Event.send 0] }) :=
  ⟨by decide, by decide,
    release_ignores_rollback_result (mockDriver none []) (mockDriver none [0]) mockPool 0
      busySys busySys (by decide) (by decide) (by decide)⟩

/-! ## Interleavings: what one action does -/

/-- Effect of a single action that completes. -/
theorem step_effect {W : Type} (d : Driver W) (a : Action) (st st1 : State W)
    (h : step d a st = some st1) :
    st1.pool.connectionChannel.cap = st.pool.connectionChannel.cap ∧
    st1.pool.options = st.pool.options ∧
    (match a with
     | .acquire t => ∃ c rest, st.available = c :: rest ∧ st1.available = rest ∧
         st1.held = (t, c) :: st.held ∧ st1.sys = st.sys.log (Event.recv c)
     | .release t c => (t, c) ∈ st.held ∧
         st.available.length < st.pool.connectionChannel.cap ∧
         st1.available = st.available ++ [c] ∧ st1.held = dropHolding (t, c) st.held ∧
         st1.sys = (rollbackIfNotIdle d c st.sys).log (Event.send c)
     | .use t c sql arguments => (t, c) ∈ st.held ∧ st1.available = st.available ∧
         st1.held = st.held ∧
         st1.sys = { world := (d.Execute c sql arguments st.sys.world).2,
                     trace := st.sys.trace ++ [Event.execute c sql arguments] }) := by
  cases a with
  | acquire t =>
    simp only [step, Acquire, Chan.recv] at h
    cases hb : st.pool.connectionChannel.buf with
    | nil => simp [hb] at h
    | cons c rest =>
      simp only [hb, Option.some.injEq] at h
      subst h
      exact ⟨rfl, rfl, c, rest, hb, rfl, rfl, rfl⟩
  | release t c =>
    simp only [step] at h
    by_cases hm : (t, c) ∈ st.held
    · by_cases hroom : st.pool.connectionChannel.buf.length < st.pool.connectionChannel.cap
      · simp only [hm, if_true, release_of_room d st.pool c st.sys hroom,
          Option.some.injEq] at h
        subst h
        exact ⟨rfl, rfl, hm, hroom, rfl, rfl, rfl⟩
      · simp [hm, Release, Chan.send, hroom] at h
    · simp [hm] at h
  | use t c sql arguments =>
    simp only [step] at h
    by_cases hm : (t, c) ∈ st.held
    · simp only [hm, if_true, Option.some.injEq] at h
      subst h
      exact ⟨rfl, rfl, hm, rfl, rfl, rfl⟩
    · simp [hm] at h

theorem perm_cons_dropHolding (x : Caller × Conn) (l : List (Caller × Conn)) (h : x ∈ l) :
    l.Perm (x :: dropHolding x l) := by
  induction l with
  | nil => simp at h
  | cons y ys ih =>
    by_cases hy : y = x
    · simp [dropHolding, hy]
    · have hx : x ∈ ys := by
        rcases List.mem_cons.1 h with h1 | h1
        · exact absurd h1.symm hy
        · exact h1
      simp only [dropHolding, hy, if_false]
      exact ((ih hx).cons y).trans (List.Perm.swap x y _)

/-- An action only moves connections between the channel and the callers. -/
theorem step_perm {W : Type} (d : Driver W) (a : Action) (st st1 : State W)
    (h : step d a st = some st1) :
    (st1.available ++ st1.checkedOut).Perm (st.available ++ st.checkedOut) := by
  obtain ⟨_, _, heff⟩ := step_effect d a st st1 h
  cases a with
  | acquire t =>
    obtain ⟨c, rest, hb, hb1, hh, _⟩ := heff
    rw [hb, hb1]
    simp only [State.checkedOut, hh, List.map_cons, List.cons_append]
    exact List.perm_middle
  | release t c =>
    obtain ⟨hm, _, hb1, hh, _⟩ := heff
    rw [hb1]
    simp only [State.checkedOut, hh, List.append_assoc, List.singleton_append]
    refine List.Perm.append_left _ ?_
    have := (perm_cons_dropHolding (t, c) st.held hm).map Prod.snd
    simpa using this.symm
  | use t c sql arguments =>
    obtain ⟨_, hb1, hh, _⟩ := heff
    simp [State.checkedOut, hb1, hh]

/-- Induction over a schedule for a property kept by every action. -/
theorem run_induction {W : Type} (d : Driver W) (P : State W → Prop)
    (hstep : ∀ a st st1, P st → step d a st = some st1 → P st1) :
    ∀ (acts : List Action) (st st1 : State W), P st → run d acts st = some st1 → P st1 := by
  intro acts
  induction acts with
  | nil =>
    intro st st1 hP h
    simp only [run, Option.some.injEq] at h
    exact h ▸ hP
  | cons a rest ih =>
    intro st st1 hP h
    simp only [run] at h
    cases hs : step d a st with
    | none => simp [hs] at h
    | some st2 =>
      simp only [hs, Option.bind] at h
      exact ih st2 st1 (hstep a st st2 hP hs) h

theorem run_perm {W : Type} (d : Driver W) (acts : List Action) (st st1 : State W)
    (h : run d acts st = some st1) :
    (st1.available ++ st1.checkedOut).Perm (st.available ++ st.checkedOut) ∧
      st1.pool.connectionChannel.cap = st.pool.connectionChannel.cap ∧
      st1.pool.options = st.pool.options :=
  run_induction d
    (fun x => (x.available ++ x.checkedOut).Perm (st.available ++ st.checkedOut) ∧
      x.pool.connectionChannel.cap = st.pool.connectionChannel.cap ∧
      x.pool.options = st.pool.options)
    (fun a x x1 hP hs =>
      ⟨(step_perm d a x x1 hs).trans hP.1,
       (step_effect d a x x1 hs).1.trans hP.2.1,
       (step_effect d a x x1 hs).2.1.trans hP.2.2⟩)
    acts st st1 ⟨List.Perm.refl _, rfl, rfl⟩ h

/-- What the loop of `NewConnectionPool` leaves behind when it returns. -/
theorem loop_returns {W : Type} (d : Driver W) (n : Nat) :
    ∀ (p p1 : ConnectionPool W) (s s1 : Sys W) (err : Option Error),
      NewConnectionPool.loop d n p s = .ret (p1, err, s1) →
      p1.connectionChannel.cap = p.connectionChannel.cap ∧ p1.options = p.options ∧
      p1.parameters = p.parameters ∧
      (err = none →
        p1.connectionChannel.buf.length = p.connectionChannel.buf.length + n) := by
  induction n with
  | zero =>
    intro p p1 s s1 err h
    simp only [NewConnectionPool.loop, Outcome.ret.injEq, Prod.mk.injEq] at h
    obtain ⟨rfl, _, _⟩ := h
    simp
  | succ n ih =>
    intro p p1 s s1 err h
    rw [NewConnectionPool.loop] at h
    cases he : (createConnection d p s).1.2 with
    | some e =>
      simp only [he, Outcome.ret.injEq, Prod.mk.injEq] at h
      obtain ⟨rfl, rfl, _⟩ := h
      simp
    | none =>
      simp only [he] at h
      by_cases hroom : p.connectionChannel.buf.length < p.connectionChannel.cap
      · simp only [send_of_room _ _ hroom] at h
        obtain ⟨h1, h2, h3, h4⟩ := ih _ _ _ _ _ h
        refine ⟨h1, h2, h3, fun hn => ?_⟩
        rw [h4 hn]
        simp only [withChan_connectionChannel, List.length_append, List.length_cons,
          List.length_nil]
        omega
      · simp [Chan.send, hroom] at h

/-- A pool that `NewConnectionPool` returned without error: the channel has
capacity `MaxConnections` and is full. -/
theorem newConnectionPool_returns {W : Type} (d : Driver W)
    (parameters : ConnectionParameters) (options : ConnectionPoolOptions W) (s s1 : Sys W)
    (p : ConnectionPool W)
    (h : NewConnectionPool d parameters options s = .ret (p, none, s1)) :
    0 ≤ options.MaxConnections ∧
    p.connectionChannel.cap = options.MaxConnections.toNat ∧
    p.connectionChannel.buf.length = options.MaxConnections.toNat ∧
    p.options = options ∧ p.parameters = parameters := by
  unfold NewConnectionPool at h
  by_cases hneg : options.MaxConnections < 0
  · simp [Chan.make, hneg] at h
  · simp only [Chan.make, hneg, if_false] at h
    obtain ⟨h1, h2, h3, h4⟩ := loop_returns d _ _ _ _ _ _ h
    refine ⟨by omega, h1, ?_, h2, h3⟩
    simpa using h4 rfl

/-! ## Invariants of interleaved use -/

/-- C1: from a pool that `NewConnectionPool` returned without error (so
`MaxConnections = N`, in particular for N > 0), after any schedule of
acquire, release (by a holder) and use actions, the number of connections in
the channel plus the number of checked-out connections is N, and so at most
N connections are checked out. -/
theorem available_plus_checkedOut {W : Type} (d : Driver W)
    (parameters : ConnectionParameters) (options : ConnectionPoolOptions W) (s0 s1 : Sys W)
    (p : ConnectionPool W)
    (hnew : NewConnectionPool d parameters options s0 = .ret (p, none, s1))
    (acts : List Action) (st : State W)
    (hrun : run d acts (initState p s1) = some st) :
    ((st.available.length + st.checkedOut.length : Nat) : Int) = options.MaxConnections ∧
      (st.checkedOut.length : Int) ≤ options.MaxConnections := by
  obtain ⟨hnn, _, hlen, _, _⟩ := newConnectionPool_returns d parameters options s0 s1 p hnew
  have hperm := (run_perm d acts _ st hrun).1
  have hl := hperm.length_eq
  simp only [List.length_append, initState, State.available, State.checkedOut, List.map_nil,
    List.length_nil, Nat.add_zero] at hl
  simp only [State.available, State.checkedOut]
  rw [hlen] at hl
  constructor <;> omega

/-- The pool that the small collaborator builds for two connections. -/
def mockPool2 : ConnectionPool MockWorld :=
  { connectionChannel := { buf := [0, 1], cap := 2 }, parameters := "db", options := ⟨2, none⟩ }

/-- The world after the small collaborator opened two connections. -/
def mockSys2 : Sys MockWorld :=
  { world := { next := 2, inTx := [] },
    trace := [Event.connect "db", Event.send 0, Event.connect "db", Event.send 1] }

/-- A schedule of two callers on a pool of two connections. -/
def mockSchedule : List Action :=
  [.acquire 7, .acquire 8, .use 7 0 "begin" [], .release 7 0, .acquire 9]

/-- The state the schedule `mockSchedule` leads to. -/
def mockState : State MockWorld :=
  { pool := mockPool2.withChan ⟨[], 2⟩,
    held := [(9, 0), (8, 1)],
    sys := { world := { next := 2, inTx := [] },
             trace := mockSys2.trace ++
               [Event.recv 0, Event.recv 1, Event.execute 0 "begin" [],
                Event.execute 0 "rollback" [], Event.send 0, Event.recv 0] } }

theorem mock_new : NewConnectionPool (mockDriver none []) "db" ⟨2, none⟩ mockSys =
    .ret (mockPool2, none, mockSys2) := rfl

theorem mock_run : run (mockDriver none []) mockSchedule (initState mockPool2 mockSys2) =
    some mockState := rfl

theorem available_plus_checkedOut_witness :
    ((mockState.available.length + mockState.checkedOut.length : Nat) : Int) = 2 ∧
      (mockState.checkedOut.length : Int) ≤ 2 :=
  available_plus_checkedOut (mockDriver none []) "db" ⟨2, none⟩ mockSys mockSys2 mockPool2
    mock_new mockSchedule mockState mock_run

/-- C3: from a pool that `NewConnectionPool` returned without error over
pairwise distinct connections, after any schedule the connections in the
channel together with the checked-out ones are exactly the N connections of
the pool, each once: every connection of the pool is in the channel once or
held by one caller, never both; and the connection an `Acquire` returns is
held by no caller at that moment (so it was released since it was last
acquired). -/
theorem exclusive_ownership {W : Type} (d : Driver W)
    (parameters : ConnectionParameters) (options : ConnectionPoolOptions W) (s0 s1 : Sys W)
    (p : ConnectionPool W)
    (hnew : NewConnectionPool d parameters options s0 = .ret (p, none, s1))
    (hnodup : p.connectionChannel.buf.Nodup)
    (acts : List Action) (st : State W)
    (hrun : run d acts (initState p s1) = some st) :
    (st.available ++ st.checkedOut).Perm p.connectionChannel.buf ∧
      p.connectionChannel.buf.length = options.MaxConnections.toNat ∧
      (st.available ++ st.checkedOut).Nodup ∧
      (∀ c ∈ p.connectionChannel.buf, st.available.count c + st.checkedOut.count c = 1) ∧
      (∀ c ∈ st.available, c ∉ st.checkedOut) ∧
      (∀ t st1, step d (.acquire t) st = some st1 →
        ∃ c, st1.held = (t, c) :: st.held ∧ c ∈ st.available ∧ c ∉ st.checkedOut) := by
  obtain ⟨_, _, hlen, _, _⟩ := newConnectionPool_returns d parameters options s0 s1 p hnew
  have hperm : (st.available ++ st.checkedOut).Perm p.connectionChannel.buf := by
    simpa [initState, State.available, State.checkedOut] using (run_perm d acts _ st hrun).1
  have hnd : (st.available ++ st.checkedOut).Nodup := hperm.nodup_iff.2 hnodup
  have hdisj : ∀ c ∈ st.available, c ∉ st.checkedOut := fun c hc hc1 =>
    (List.nodup_append.1 hnd).2.2 hc hc1
  refine ⟨hperm, hlen, hnd, ?_, hdisj, ?_⟩
  · intro c hc
    have h1 : (st.available ++ st.checkedOut).count c = p.connectionChannel.buf.count c :=
      hperm.count_eq c
    rw [List.count_append, List.count_eq_one_of_mem hnodup hc] at h1
    exact h1
  · intro t st1 hs
    obtain ⟨_, _, c, rest, hb, _, hh, _⟩ := step_effect d (.acquire t) st st1 hs
    have hc : c ∈ st.available := by rw [hb]; exact List.mem_cons_self _ _
    exact ⟨c, hh, hc, hdisj c hc⟩

theorem exclusive_ownership_witness :
    (mockState.available ++ mockState.checkedOut).Perm [0, 1] ∧
      (mockState.available ++ mockState.checkedOut).Nodup :=
  have h := exclusive_ownership (mockDriver none []) "db" ⟨2, none⟩ mockSys mockSys2 mockPool2
    mock_new (by decide) mockSchedule mockState mock_run
  ⟨h.1, h.2.2.1⟩

/-- C10: from a pool that `NewConnectionPool` returned without error with
capacity N, in every state reached by a schedule, whenever a caller holds a
connection the channel (of capacity N) holds fewer than N connections, so
the `Release` of that connection returns, with the connection appended to
the channel. -/
theorem release_never_blocks {W : Type} (d : Driver W)
    (parameters : ConnectionParameters) (options : ConnectionPoolOptions W) (s0 s1 : Sys W)
    (p : ConnectionPool W)
    (hnew : NewConnectionPool d parameters options s0 = .ret (p, none, s1))
    (acts : List Action) (st : State W)
    (hrun : run d acts (initState p s1) = some st)
    (t : Caller) (c : Conn) (hheld : (t, c) ∈ st.held) :
    st.pool.connectionChannel.cap = options.MaxConnections.toNat ∧
      st.available.length < options.MaxConnections.toNat ∧
      (∃ s2, Release d st.pool c st.sys =
        .ret (st.pool.withChan ⟨st.available ++ [c], st.pool.connectionChannel.cap⟩, s2)) ∧
      ∃ st1, step d (.release t c) st = some st1 ∧ st1.available = st.available ++ [c] := by
  obtain ⟨_, hcap, hlen, _, _⟩ := newConnectionPool_returns d parameters options s0 s1 p hnew
  obtain ⟨hperm, hcap1, _⟩ := run_perm d acts _ st hrun
  have hl := hperm.length_eq
  simp only [List.length_append, initState, State.available, State.checkedOut, List.map_nil,
    List.length_nil, Nat.add_zero, List.length_map] at hl
  have hpos : 0 < st.held.length := List.length_pos_of_mem hheld
  have hcapst : st.pool.connectionChannel.cap = options.MaxConnections.toNat := by
    rw [hcap1]; exact hcap
  have hlt : st.pool.connectionChannel.buf.length < options.MaxConnections.toNat := by
    rw [hlen] at hl; omega
  have hroom : st.pool.connectionChannel.buf.length < st.pool.connectionChannel.cap := by
    rw [hcapst]; exact hlt
  refine ⟨hcapst, hlt, ⟨_, release_of_room d st.pool c st.sys hroom⟩, ?_⟩
  refine ⟨{ pool := st.pool.withChan ⟨st.available ++ [c], st.pool.connectionChannel.cap⟩,
            held := dropHolding (t, c) st.held,
            sys := (rollbackIfNotIdle d c st.sys).log (Event.send c) }, ?_, rfl⟩
  simp only [step, hheld, if_true, release_of_room d st.pool c st.sys hroom]
  rfl

theorem release_never_blocks_witness :
    ∃ st1, step (mockDriver none []) (.release 8 1) mockState = some st1 ∧
      st1.available = mockState.available ++ [1] :=
  (release_never_blocks (mockDriver none []) "db" ⟨2, none⟩ mockSys mockSys2 mockPool2
    mock_new mockSchedule mockState mock_run 8 1 (by decide)).2.2.2

/-! ## Transaction status of pooled connections -/

/-- C6, as stated, fails: a pool of one connection is built, a caller
acquires connection `0`, opens a transaction on it and releases it; the
rollback issued by `Release` fails, `Release` puts the connection back all
the same, and the connection in the channel is inside an open transaction. -/
theorem repooled_inside_transaction :
    ∃ (p : ConnectionPool MockWorld) (s1 : Sys MockWorld) (st : State MockWorld),
      NewConnectionPool (mockDriver none [0]) "db" ⟨1, none⟩ mockSys = .ret (p, none, s1) ∧
      run (mockDriver none [0]) [.acquire 7, .use 7 0 "begin" [], .release 7 0]
        (initState p s1) = some st ∧
      st.sys.trace = [Event.connect "db", Event.send 0, Event.recv 0,
        Event.execute 0 "begin" [], Event.execute 0 "rollback" [], Event.send 0] ∧
      0 ∈ st.available ∧ (mockDriver none [0]).TxStatus 0 st.sys.world ≠ 'I' :=
  ⟨⟨⟨[0], 1⟩, "db", ⟨1, none⟩⟩,
   ⟨⟨1, []⟩, [Event.connect "db", Event.send 0]⟩,
   ⟨⟨⟨[0], 1⟩, "db", ⟨1, none⟩⟩, [],
    ⟨⟨1, [0]⟩, [Event.connect "db", Event.send 0, Event.recv 0,
      Event.execute 0 "begin" [], Event.execute 0 "rollback" [], Event.send 0]⟩⟩,
   rfl, rfl, rfl, by decide, by decide⟩

/-- One action keeps the connections in the channel idle, when every
rollback leaves its connection idle and a statement on one connection does
not change the status of another. -/
theorem step_keeps_idle {W : Type} (d : Driver W)
    (hroll : ∀ c w, d.TxStatus c (d.Execute c "rollback" [] w).2 = 'I')
    (hframe : ∀ c c1 sql arguments w, c1 ≠ c →
      d.TxStatus c1 (d.Execute c sql arguments w).2 = d.TxStatus c1 w)
    (a : Action) (st st1 : State W)
    (hnd : (st.available ++ st.checkedOut).Nodup)
    (hidle : ∀ c ∈ st.available, d.TxStatus c st.sys.world = 'I')
    (hs : step d a st = some st1) :
    ∀ c ∈ st1.available, d.TxStatus c st1.sys.world = 'I' := by
  have hdisj : ∀ (t : Caller) (c c1 : Conn), (t, c) ∈ st.held → c1 ∈ st.available → c1 ≠ c := by
    intro t c c1 hm hc1 heq
    subst heq
    exact (List.nodup_append.1 hnd).2.2 hc1 (List.mem_map.2 ⟨(t, c1), hm, rfl⟩)
  obtain ⟨_, _, heff⟩ := step_effect d a st st1 hs
  cases a with
  | acquire t =>
    obtain ⟨c, rest, hb, hb1, _, hsys⟩ := heff
    intro c1 hc1
    rw [hsys]
    exact hidle c1 (by rw [hb]; exact List.mem_cons_of_mem _ (hb1 ▸ hc1))
  | release t c =>
    obtain ⟨hm, _, hb1, _, hsys⟩ := heff
    intro c1 hc1
    rw [hsys]
    simp only [Sys.log]
    rw [hb1] at hc1
    by_cases hst : d.TxStatus c st.sys.world = 'I'
    · rw [rollbackIfNotIdle_idle d c st.sys hst]
      rcases List.mem_append.1 hc1 with h | h
      · exact hidle c1 h
      · rw [List.mem_singleton.1 h]; exact hst
    · rw [rollbackIfNotIdle_busy d c st.sys hst]
      rcases List.mem_append.1 hc1 with h | h
      · simp only
        rw [hframe c c1 _ _ _ (hdisj t c c1 hm h)]
        exact hidle c1 h
      · rw [List.mem_singleton.1 h]; exact hroll c _
  | use t c sql arguments =>
    obtain ⟨hm, hb1, _, hsys⟩ := heff
    intro c1 hc1
    rw [hsys]
    rw [hb1] at hc1
    simp only
    rw [hframe c c1 _ _ _ (hdisj t c c1 hm hc1)]
    exact hidle c1 hc1

/-- C6, amended: assume every rollback statement leaves its connection idle
and a statement on one connection does not change the status of another.
Then every `Release` into a channel with room returns with the connection
appended to the channel and idle at that moment; and from a pool of pairwise
distinct connections that are all idle, every connection in the channel of
every state reached by a schedule is idle. -/
theorem repooled_idle_when_rollback_works {W : Type} (d : Driver W)
    (hroll : ∀ c w, d.TxStatus c (d.Execute c "rollback" [] w).2 = 'I')
    (hframe : ∀ c c1 sql arguments w, c1 ≠ c →
      d.TxStatus c1 (d.Execute c sql arguments w).2 = d.TxStatus c1 w)
    (p : ConnectionPool W) (s : Sys W)
    (hnodup : p.connectionChannel.buf.Nodup)
    (hinit : ∀ c ∈ p.connectionChannel.buf, d.TxStatus c s.world = 'I')
    (acts : List Action) (st : State W)
    (hrun : run d acts (initState p s) = some st) :
    (∀ (q : ConnectionPool W) (c : Conn) (s1 : Sys W),
        q.connectionChannel.buf.length < q.connectionChannel.cap →
        ∃ s2, Release d q c s1 =
            .ret (q.withChan ⟨q.connectionChannel.buf ++ [c], q.connectionChannel.cap⟩, s2) ∧
          d.TxStatus c s2.world = 'I') ∧
      ∀ c ∈ st.available, d.TxStatus c st.sys.world = 'I' := by
  constructor
  · intro q c s1 hroom
    refine ⟨_, release_of_room d q c s1 hroom, ?_⟩
    simp only [Sys.log]
    by_cases hst : d.TxStatus c s1.world = 'I'
    · rw [rollbackIfNotIdle_idle d c s1 hst]; exact hst
    · rw [rollbackIfNotIdle_busy d c s1 hst]; exact hroll c _
  · have h := run_induction d
      (fun x => (x.available ++ x.checkedOut).Nodup ∧
        ∀ c ∈ x.available, d.TxStatus c x.sys.world = 'I')
      (fun a x x1 hP hs =>
        ⟨(step_perm d a x x1 hs).nodup_iff.2 hP.1,
         step_keeps_idle d hroll hframe a x x1 hP.1 hP.2 hs⟩)
      acts (initState p s) st
      ⟨by simpa [initState, State.available, State.checkedOut] using hnodup, hinit⟩ hrun
    exact h.2

theorem mock_rollback_idle (c : Conn) (w : MockWorld) :
    (mockDriver none []).TxStatus c ((mockDriver none []).Execute c "rollback" [] w).2 = 'I' := by
  simp [mockDriver]

theorem mock_frame (c c1 : Conn) (sql : String) (arguments : List Value) (w : MockWorld)
    (h : c1 ≠ c) :
    (mockDriver none []).TxStatus c1 ((mockDriver none []).Execute c sql arguments w).2 =
      (mockDriver none []).TxStatus c1 w := by
  simp only [mockDriver]
  split_ifs <;> simp_all

/-- The state after a caller took connection `0`, opened a transaction on it
and released it. -/
def mockStateIdle : State MockWorld :=
  { pool := mockPool2.withChan ⟨[1, 0], 2⟩,
    held := [],
    sys := { world := { next := 2, inTx := [] },
             trace := mockSys2.trace ++
               [Event.recv 0, Event.execute 0 "begin" [],
                Event.execute 0 "rollback" [], Event.send 0] } }

theorem repooled_idle_when_rollback_works_witness :
    mockStateIdle.available = [1, 0] ∧
      ∀ c ∈ mockStateIdle.available,
        (mockDriver none []).TxStatus c mockStateIdle.sys.world = 'I' :=
  ⟨rfl,
   (repooled_idle_when_rollback_works (mockDriver none []) mock_rollback_idle mock_frame
    mockPool2 mockSys2 (by decide) (by decide)
    [.acquire 7, .use 7 0 "begin" [], .release 7 0] mockStateIdle rfl).2⟩

/-! ## Close -/

theorem close_loop_all {W : Type} (d : Driver W) (cs : List Conn) :
    ∀ (p : ConnectionPool W) (s : Sys W), p.connectionChannel.buf = cs →
      Close.loop d cs.length p s =
        .ret (p.withChan ⟨[], p.connectionChannel.cap⟩,
              { world := cs.foldl (fun w c => (d.Close c w).2) s.world,
                trace := s.trace ++ closeEvents cs }) := by
  induction cs with
  | nil =>
    intro p s hb
    cases p with
    | mk ch pa op =>
      cases ch with
      | mk buf cap =>
        simp only at hb
        subst hb
        simp [Close.loop, closeEvents, ConnectionPool.withChan]
  | cons c cs ih =>
    intro p s hb
    simp only [List.length_cons, Close.loop, Chan.recv, hb]
    rw [ih _ _ rfl]
    simp [closeEvents, List.flatMap_cons, ConnectionPool.withChan]

theorem count_close_closeEvents (cs : List Conn) (c : Conn) :
    (closeEvents cs).count (Event.close c) = cs.count c ∧
      (closeEvents cs).count (Event.recv c) = cs.count c := by
  induction cs with
  | nil => simp [closeEvents]
  | cons a cs ih =>
    simp only [closeEvents] at ih
    by_cases h : a = c <;>
      simp [closeEvents, List.flatMap_cons, List.count_cons, ih, h]

/-- C9: on a pool whose N = `MaxConnections` connections are all in the
channel and pairwise distinct, `Close` returns, whatever the close calls
return: the trace gains, for each connection in channel order, the receive
and the close of that connection, so each of the N connections is taken out
once and closed once, the world is changed by the N close calls in that
order, and the channel is left empty. -/
theorem close_closes_each_once {W : Type} (d : Driver W) (p : ConnectionPool W) (s : Sys W)
    (hlen : (p.connectionChannel.buf.length : Int) = p.options.MaxConnections)
    (hnodup : p.connectionChannel.buf.Nodup) :
    Close d p s =
        .ret (p.withChan ⟨[], p.connectionChannel.cap⟩,
              { world := p.connectionChannel.buf.foldl (fun w c => (d.Close c w).2) s.world,
                trace := s.trace ++ closeEvents p.connectionChannel.buf }) ∧
      (∀ c ∈ p.connectionChannel.buf,
        (closeEvents p.connectionChannel.buf).count (Event.close c) = 1 ∧
        (closeEvents p.connectionChannel.buf).count (Event.recv c) = 1) ∧
      ((closeEvents p.connectionChannel.buf).length : Int) = 2 * p.options.MaxConnections := by
  refine ⟨?_, ?_, ?_⟩
  · have hto : p.options.MaxConnections.toNat = p.connectionChannel.buf.length := by omega
    rw [Close, hto]
    exact close_loop_all d _ p s rfl
  · intro c hc
    obtain ⟨h1, h2⟩ := count_close_closeEvents p.connectionChannel.buf c
    rw [h1, h2, List.count_eq_one_of_mem hnodup hc]
    exact ⟨rfl, rfl⟩
  · rw [← hlen]
    have : ∀ cs : List Conn, (closeEvents cs).length = 2 * cs.length := by
      intro cs
      induction cs with
      | nil => simp [closeEvents]
      | cons a cs ih =>
        simp only [closeEvents] at ih
        simp [closeEvents, List.flatMap_cons, ih]
        omega
    rw [this]
    push_cast
    ring

theorem close_closes_each_once_witness :
    (mockDriver none [1]).Close 1 mockSys2.world = (some "broken pipe", mockSys2.world) ∧
      Close (mockDriver none [1]) mockPool2 mockSys2 =
        .ret (mockPool2.withChan ⟨[], 2⟩,
              { world := { next := 2, inTx := [] },
                trace := mockSys2.trace ++
                  [Event.recv 0, Event.close 0, Event.recv 1, Event.close 1] }) :=
  ⟨by decide,
   (close_closes_each_once (mockDriver none [1]) mockPool2 mockSys2 (by decide)
      (by decide)).1⟩

/-! ## Delegated operations -/

/-- State in which a delegated operation returns: connection `c` was
received, the delegated call left world `w` and logged `e`, and the deferred
`Release` ran its rollback check and sent `c` back. -/
def afterDelegate {W : Type} (d : Driver W) (c : Conn) (s : Sys W) (w : W) (e : Event) :
    Sys W :=
  (rollbackIfNotIdle d c { world := w, trace := s.trace ++ [Event.recv c, e] }).log
    (Event.send c)

theorem acquire_cons {W : Type} (p : ConnectionPool W) (s : Sys W) (c : Conn)
    (rest : List Conn) (hb : p.connectionChannel.buf = c :: rest) :
    Acquire p s =
      .ret (c, p.withChan ⟨rest, p.connectionChannel.cap⟩, s.log (Event.recv c)) := by
  simp [Acquire, Chan.recv, hb]

/-- C8: on a pool whose channel holds `c :: rest` (within its capacity),
each delegated operation returns exactly what the same operation of the
acquired connection `c` returned for the same sql and arguments, value and
error alike, and `c` is back in the channel, behind the others, so the number
of available connections is unchanged. -/
theorem delegated_operations {W : Type} (d : Driver W) (p : ConnectionPool W)
    (sql : String) (onDataRow : RowFunc) (arguments : List Value) (s : Sys W)
    (c : Conn) (rest : List Conn)
    (hb : p.connectionChannel.buf = c :: rest)
    (hcap : p.connectionChannel.buf.length ≤ p.connectionChannel.cap) :
    SelectFunc d p sql onDataRow arguments s =
        .ret ((d.SelectFunc c sql onDataRow arguments s.world).1,
              p.withChan ⟨rest ++ [c], p.connectionChannel.cap⟩,
              afterDelegate d c s (d.SelectFunc c sql onDataRow arguments s.world).2
                (Event.selectFunc c sql onDataRow arguments)) ∧
      SelectRows d p sql arguments s =
        .ret ((d.SelectRows c sql arguments s.world).1,
              p.withChan ⟨rest ++ [c], p.connectionChannel.cap⟩,
              afterDelegate d c s (d.SelectRows c sql arguments s.world).2
                (Event.selectRows c sql arguments)) ∧
      SelectRow d p sql arguments s =
        .ret ((d.SelectRow c sql arguments s.world).1,
              p.withChan ⟨rest ++ [c], p.connectionChannel.cap⟩,
              afterDelegate d c s (d.SelectRow c sql arguments s.world).2
                (Event.selectRow c sql arguments)) ∧
      SelectValue d p sql arguments s =
        .ret ((d.SelectValue c sql arguments s.world).1,
              p.withChan ⟨rest ++ [c], p.connectionChannel.cap⟩,
              afterDelegate d c s (d.SelectValue c sql arguments s.world).2
                (Event.selectValue c sql arguments)) ∧
      SelectValues d p sql arguments s =
        .ret ((d.SelectValues c sql arguments s.world).1,
              p.withChan ⟨rest ++ [c], p.connectionChannel.cap⟩,
              afterDelegate d c s (d.SelectValues c sql arguments s.world).2
                (Event.selectValues c sql arguments)) ∧
      Execute d p sql arguments s =
        .ret ((d.Execute c sql arguments s.world).1,
              p.withChan ⟨rest ++ [c], p.connectionChannel.cap⟩,
              afterDelegate d c s (d.Execute c sql arguments s.world).2
                (Event.execute c sql arguments)) ∧
      (rest ++ [c]).length = p.connectionChannel.buf.length := by
  have hroom : (p.withChan ⟨rest, p.connectionChannel.cap⟩).connectionChannel.buf.length <
      (p.withChan ⟨rest, p.connectionChannel.cap⟩).connectionChannel.cap := by
    rw [hb] at hcap
    simp only [withChan_connectionChannel]
    simp only [List.length_cons] at hcap
    omega
  refine ⟨?_, ?_, ?_, ?_, ?_, ?_, ?_⟩
  · simp [SelectFunc, acquire_cons p s c rest hb, Outcome.bind, release_of_room _ _ _ _ hroom,
      afterDelegate, Sys.log]
  · simp [SelectRows, acquire_cons p s c rest hb, Outcome.bind, release_of_room _ _ _ _ hroom,
      afterDelegate, Sys.log]
  · simp [SelectRow, acquire_cons p s c rest hb, Outcome.bind, release_of_room _ _ _ _ hroom,
      afterDelegate, Sys.log]
  · simp [SelectValue, acquire_cons p s c rest hb, Outcome.bind, release_of_room _ _ _ _ hroom,
      afterDelegate, Sys.log]
  · simp [SelectValues, acquire_cons p s c rest hb, Outcome.bind,
      release_of_room _ _ _ _ hroom, afterDelegate, Sys.log]
  · simp [Execute, acquire_cons p s c rest hb, Outcome.bind, release_of_room _ _ _ _ hroom,
      afterDelegate, Sys.log]
  · rw [hb]; simp

theorem delegated_operations_witness :
    SelectValue (mockDriver none [0]) mockPool2 "select 1" [] mockSys2 =
        .ret (("select 1", some "broken pipe"), mockPool2.withChan ⟨[1, 0], 2⟩,
              { world := mockSys2.world,
                trace := mockSys2.trace ++
                  [Event.recv 0, Event.selectValue 0 "select 1" [], Event.send 0] }) ∧
      Execute (mockDriver none []) mockPool2 "begin" [] mockSys2 =
        .ret (("begin", none), mockPool2.withChan ⟨[1, 0], 2⟩,
              { world := { next := 2, inTx := [] },
                trace := mockSys2.trace ++
                  [Event.recv 0, Event.execute 0 "begin" [],
                   Event.execute 0 "rollback" [], Event.send 0] }) :=
  ⟨(delegated_operations (mockDriver none [0]) mockPool2 "select 1" 0 [] mockSys2 0 [1] rfl
      (by decide)).2.2.2.1,
   (delegated_operations (mockDriver none []) mockPool2 "begin" 0 [] mockSys2 0 [1] rfl
      (by decide)).2.2.2.2.2.1⟩

end Pgx
